import Mathlib

/-!
Verification of TheManifoldWeb's core algorithms against its specification.

Shallow embedding conventions:
* Machine integers (`u64`, `usize`, `i64`) are modelled as `Nat`/`Int` with
  explicit reduction modulo `2^w` where the source relies on wrapping.
* Byte strings (Rust `&[u8]`, `Vec<u8>`, string bytes) are `List Nat`
  with every element `< 256` at construction sites.
* `f32` scalars appear in two roles and are modelled accordingly:
  - the state hasher only touches their raw IEEE-754 little-endian byte
    representation, so there a position component is its 32-bit bit pattern
    (a `Nat < 2^32`);
  - kinematics and dead reckoning do exact arithmetic on small values, so
    there scalars are `ℚ` (the real-number reading of the float formulas).
* `Instant`/elapsed time is passed explicitly as a `dt` argument.
* The thread-local RNG is passed explicitly as an oracle argument
  (crossover point, per-byte mutation draw).
-/

namespace ManifoldWeb

/-! ## Byte-level helpers (Rust `to_le_bytes` / big-endian splits) -/

/-- `u64::to_le_bytes`: eight little-endian bytes of `n % 2^64`. -/
def u64le (n : Nat) : List Nat :=
  [n % 256, (n >>> 8) % 256, (n >>> 16) % 256, (n >>> 24) % 256,
   (n >>> 32) % 256, (n >>> 40) % 256, (n >>> 48) % 256, (n >>> 56) % 256]

/-- `f32::to_le_bytes` applied to a stored 32-bit pattern: four little-endian bytes. -/
def u32le (n : Nat) : List Nat :=
  [n % 256, (n >>> 8) % 256, (n >>> 16) % 256, (n >>> 24) % 256]

/-- Four big-endian bytes of a 32-bit word (used inside SHA-256). -/
def u32be (n : Nat) : List Nat :=
  [(n >>> 24) % 256, (n >>> 16) % 256, (n >>> 8) % 256, n % 256]

/-- Eight big-endian bytes of a 64-bit length field (used inside SHA-256). -/
def u64be (n : Nat) : List Nat :=
  [(n >>> 56) % 256, (n >>> 48) % 256, (n >>> 40) % 256, (n >>> 32) % 256,
   (n >>> 24) % 256, (n >>> 16) % 256, (n >>> 8) % 256, n % 256]

/-! ## SHA-256 (FIPS 180-4), executable over byte lists

The node hashes its state with the `sha2` crate; this is a direct embedding
of the SHA-256 function itself so digests can be computed inside Lean. -/

def rotr32 (n w : Nat) : Nat :=
  ((w >>> n) ||| (w <<< (32 - n))) % 2 ^ 32

def shaCh (e f g : Nat) : Nat := (e &&& f) ^^^ ((e ^^^ 0xffffffff) &&& g)

def shaMaj (a b c : Nat) : Nat := (a &&& b) ^^^ (a &&& c) ^^^ (b &&& c)

def bigSigma0 (w : Nat) : Nat := rotr32 2 w ^^^ rotr32 13 w ^^^ rotr32 22 w

def bigSigma1 (w : Nat) : Nat := rotr32 6 w ^^^ rotr32 11 w ^^^ rotr32 25 w

def smallSigma0 (w : Nat) : Nat := rotr32 7 w ^^^ rotr32 18 w ^^^ (w >>> 3)

def smallSigma1 (w : Nat) : Nat := rotr32 17 w ^^^ rotr32 19 w ^^^ (w >>> 10)

/-- The 64 SHA-256 round constants (fractional cube-root bits of the first
64 primes, written in decimal). -/
def K256 : List Nat :=
  [1116352408, 1899447441, 3049323471, 3921009573, 961987163,
   1508970993, 2453635748, 2870763221, 3624381080, 310598401,
   607225278, 1426881987, 1925078388, 2162078206, 2614888103,
   3248222580, 3835390401, 4022224774, 264347078, 604807628,
   770255983, 1249150122, 1555081692, 1996064986, 2554220882,
   2821834349, 2952996808, 3210313671, 3336571891, 3584528711,
   113926993, 338241895, 666307205, 773529912, 1294757372,
   1396182291, 1695183700, 1986661051, 2177026350, 2456956037,
   2730485921, 2820302411, 3259730800, 3345764771, 3516065817,
   3600352804, 4094571909, 275423344, 430227734, 506948616,
   659060556, 883997877, 958139571, 1322822218, 1537002063,
   1747873779, 1955562222, 2024104815, 2227730452, 2361852424,
   2428436474, 2756734187, 3204031479, 3329325298]

/-- Working state of the compression function. -/
structure Sha256State where
  a : Nat
  b : Nat
  c : Nat
  d : Nat
  e : Nat
  f : Nat
  g : Nat
  h : Nat
deriving DecidableEq, Repr

/-- SHA-256 initial hash value (fractional square-root bits of the first
eight primes, written in decimal). -/
def shaInit : Sha256State :=
  ⟨1779033703, 3144134277, 1013904242, 2773480762,
   1359893119, 2600822924, 528734635, 1541459225⟩

/-- Big-endian 32-bit words of a byte list (trailing partial group dropped). -/
def wordsOfBytes : List Nat → List Nat
  | b0 :: b1 :: b2 :: b3 :: rest =>
      (((b0 * 256 + b1) * 256 + b2) * 256 + b3) :: wordsOfBytes rest
  | _ => []

/-- Next word of the message schedule from the words produced so far. -/
def scheduleWord (w : List Nat) : Nat :=
  let n := w.length
  (smallSigma1 (w.getD (n - 2) 0) + w.getD (n - 7) 0 +
   smallSigma0 (w.getD (n - 15) 0) + w.getD (n - 16) 0) % 2 ^ 32

/-- Extend the message schedule by `k` further words. -/
def extendSchedule : Nat → List Nat → List Nat
  | 0, w => w
  | k + 1, w => extendSchedule k (w ++ [scheduleWord w])

/-- The 64-word message schedule of one 64-byte block. -/
def schedule (block : List Nat) : List Nat :=
  extendSchedule 48 (wordsOfBytes block)

/-- One compression round; `kw` is the pair (round constant, schedule word). -/
def shaRound (s : Sha256State) (kw : Nat × Nat) : Sha256State :=
  let t1 := (s.h + bigSigma1 s.e + shaCh s.e s.f s.g + kw.1 + kw.2) % 2 ^ 32
  let t2 := (bigSigma0 s.a + shaMaj s.a s.b s.c) % 2 ^ 32
  ⟨(t1 + t2) % 2 ^ 32, s.a, s.b, s.c, (s.d + t1) % 2 ^ 32, s.e, s.f, s.g⟩

/-- Compress one 64-byte block into the running hash state. -/
def compress (st : Sha256State) (block : List Nat) : Sha256State :=
  let r := (K256.zip (schedule block)).foldl shaRound st
  ⟨(st.a + r.a) % 2 ^ 32, (st.b + r.b) % 2 ^ 32, (st.c + r.c) % 2 ^ 32,
   (st.d + r.d) % 2 ^ 32, (st.e + r.e) % 2 ^ 32, (st.f + r.f) % 2 ^ 32,
   (st.g + r.g) % 2 ^ 32, (st.h + r.h) % 2 ^ 32⟩

/-- Merkle–Damgård padding: `0x80`, zeros to 56 mod 64, 8-byte bit length. -/
def padMessage (msg : List Nat) : List Nat :=
  msg ++ [0x80] ++ List.replicate ((119 - msg.length % 64) % 64) 0 ++
    u64be (msg.length * 8)

/-- Split a byte list into 64-byte blocks (structural recursion on a fuel
bound so the kernel can evaluate it; any fuel at least the block count
gives the same result, and the padded length divides into blocks exactly). -/
def toBlocksAux : Nat → List Nat → List (List Nat)
  | 0, _ => []
  | fuel + 1, l => if l = [] then [] else l.take 64 :: toBlocksAux fuel (l.drop 64)

/-- Split a byte list into 64-byte blocks. -/
def toBlocks (l : List Nat) : List (List Nat) :=
  toBlocksAux l.length l

/-- The SHA-256 digest (32 bytes) of a byte list. -/
def sha256 (msg : List Nat) : List Nat :=
  let s := (toBlocks (padMessage msg)).foldl compress shaInit
  u32be s.a ++ u32be s.b ++ u32be s.c ++ u32be s.d ++
  u32be s.e ++ u32be s.f ++ u32be s.g ++ u32be s.h

/-! ## Byte-lexicographic order

Rust's `Ord` on `PeerId` compares the canonical byte form, and `Ord` on
`String` compares UTF-8 bytes; both are the lexicographic order on byte
lists defined here. Identifiers throughout are therefore `List Nat`
(their canonical bytes). -/

/-- Lexicographic `≤` on byte lists (Rust `Ord` for strings and peer ids). -/
def bytesLe : List Nat → List Nat → Bool
  | [], _ => true
  | _ :: _, [] => false
  | a :: as, b :: bs => if a < b then true else if b < a then false else bytesLe as bs

/-- `bytesLe` as a relation, for use with sorting lemmas. -/
def bytesLeP (a b : List Nat) : Prop := bytesLe a b = true

instance : DecidableRel bytesLeP := fun a b =>
  inferInstanceAs (Decidable (bytesLe a b = true))

theorem bytesLe_total (a b : List Nat) : bytesLe a b = true ∨ bytesLe b a = true := by
  induction a generalizing b with
  | nil => left; rfl
  | cons x xs ih =>
    cases b with
    | nil => right; rfl
    | cons y ys =>
      by_cases hxy : x < y
      · left; simp [bytesLe, hxy]
      · by_cases hyx : y < x
        · right; simp [bytesLe, hyx]
        · have hxe : x = y := Nat.le_antisymm (Nat.not_lt.mp hyx) (Nat.not_lt.mp hxy)
          subst hxe
          rcases ih ys with h | h
          · left; simp [bytesLe, hxy, h]
          · right; simp [bytesLe, hxy, h]

theorem bytesLe_head_le {y z : Nat} {ys zs : List Nat}
    (h : bytesLe (y :: ys) (z :: zs) = true) : y ≤ z := by
  simp only [bytesLe] at h
  by_cases h1 : y < z
  · exact Nat.le_of_lt h1
  · by_cases h2 : z < y
    · simp [h1, h2] at h
    · omega

theorem bytesLe_trans : ∀ a b c : List Nat,
    bytesLe a b = true → bytesLe b c = true → bytesLe a c = true := by
  intro a
  induction a with
  | nil => intro b c _ _; rfl
  | cons x xs ih =>
    intro b c hab hbc
    cases b with
    | nil => simp [bytesLe] at hab
    | cons y ys =>
      cases c with
      | nil => simp [bytesLe] at hbc
      | cons z zs =>
        have hxy := bytesLe_head_le hab
        have hyz := bytesLe_head_le hbc
        by_cases hxz : x < z
        · simp [bytesLe, hxz]
        · have hxey : x = y := by omega
          have hyez : y = z := by omega
          subst hxey
          subst hyez
          simp only [bytesLe, Nat.lt_irrefl, if_false] at hab hbc ⊢
          exact ih ys zs hab hbc

theorem bytesLe_antisymm : ∀ a b : List Nat,
    bytesLe a b = true → bytesLe b a = true → a = b := by
  intro a
  induction a with
  | nil =>
    intro b _ hba
    cases b with
    | nil => rfl
    | cons y ys => simp [bytesLe] at hba
  | cons x xs ih =>
    intro b hab hba
    cases b with
    | nil => simp [bytesLe] at hab
    | cons y ys =>
      have h1 := bytesLe_head_le hab
      have h2 := bytesLe_head_le hba
      have hxe : x = y := by omega
      subst hxe
      simp only [bytesLe, Nat.lt_irrefl, if_false] at hab hba
      exact congrArg (x :: ·) (ih ys hab hba)

instance : IsTotal (List Nat) bytesLeP := ⟨bytesLe_total⟩
instance : IsTrans (List Nat) bytesLeP := ⟨bytesLe_trans⟩
instance : IsAntisymm (List Nat) bytesLeP := ⟨bytesLe_antisymm⟩

/-! ## Consensus protocol (crates/manifold-protocol/src/consensus.rs and
crates/manifold-node/src/network.rs)

Peer identifiers are their canonical byte lists; state hashes are 32-byte
lists. -/

/-- `ConsensusResult` from consensus.rs. -/
inductive ConsensusResult where
  | Pending : ConsensusResult
  | Achieved (agree_count total_count : Nat) : ConsensusResult
  | Failed (agree_count total_count : Nat) : ConsensusResult
deriving DecidableEq, Repr

/-- `ConsensusResult::check`: Pending below the participation bar, then a
strict `> 2/3` test on the agreement count (`usize` division). -/
def ConsensusResult.check (agree_count total_count required_peers : Nat) :
    ConsensusResult :=
  if total_count < required_peers then .Pending
  else
    let threshold := required_peers * 2 / 3
    if agree_count > threshold then .Achieved agree_count total_count
    else .Failed agree_count total_count

/-- `StateVote` from consensus.rs. -/
structure StateVote where
  round_id : Nat
  voter : List Nat
  agree : Bool
  voter_hash : List Nat
deriving DecidableEq, Repr

/-- `StateCommit` from consensus.rs. -/
structure StateCommit where
  round_id : Nat
  tick : Nat
  state_hash : List Nat
  vote_count : Nat
deriving DecidableEq, Repr

/-- The vote-response arm of `Network::handle_consensus_protocol`: push the
incoming vote for its round, tally with `required = |known_peers| + 1`, and on
`Achieved` build the `StateCommit` that gets broadcast (note the source fills
`state_hash` with `response.voter_hash` of the vote just processed).
Returns the tally outcome and the commit broadcast, if any. -/
def handleVoteResponse (pending : List StateVote) (response : StateVote)
    (knownPeersLen tick : Nat) : ConsensusResult × Option StateCommit :=
  let votes := pending ++ [response]
  let total_nodes := knownPeersLen + 1
  let agree_count := (votes.filter (·.agree)).length
  let total_count := votes.length
  match ConsensusResult.check agree_count total_count total_nodes with
  | .Achieved a t =>
      (.Achieved a t, some ⟨response.round_id, tick, response.voter_hash, t⟩)
  | r => (r, none)

/-- Leader selection from `Network::initiate_consensus_round`: skip when no
peers are known, else sort `known_peers ++ [self]` and index by
`round_id mod N`. -/
def electLeader (round_id : Nat) (known_peers : List (List Nat))
    (selfId : List Nat) : Option (List Nat) :=
  if known_peers.isEmpty then none
  else
    let all_peers := known_peers ++ [selfId]
    let sorted := all_peers.insertionSort bytesLeP
    sorted[round_id % sorted.length]?

/-! ## State hasher (crates/manifold-node/src/simulation.rs,
`Simulation::calculate_state_hash`)

The hasher touches only raw bytes, so an agent here carries its `f32`
position components as their 32-bit IEEE-754 bit patterns and its strings
as byte lists. The agent store `HashMap<String, Agent>` is an association
list keyed by identifier bytes. -/

/-- The fields of `Agent` that `calculate_state_hash` absorbs. -/
structure HAgent where
  energy : Nat
  posx : Nat
  posy : Nat
  posz : Nat
  cid : List Nat
  parameters : List Nat
deriving DecidableEq, Repr

/-- The simulation state the hasher reads: tick counter and agent store. -/
structure HashSim where
  tick_count : Nat
  agents : List (List Nat × HAgent)
deriving DecidableEq, Repr

/-- The bytes absorbed for one agent, in source order: id, energy
(8 bytes LE), position x/y/z (4 bytes LE each), genome CID, parameters. -/
def agentAbsorb (id : List Nat) (a : HAgent) : List Nat :=
  id ++ u64le a.energy ++ u32le a.posx ++ u32le a.posy ++ u32le a.posz ++
    a.cid ++ a.parameters

/-- The byte stream `Simulation::calculate_state_hash` feeds to SHA-256:
tick count (8 bytes LE), then each agent found by looking its sorted id up
in the store. -/
def stateBytes (s : HashSim) : List Nat :=
  let ids := (s.agents.map Prod.fst).insertionSort bytesLeP
  u64le s.tick_count ++
    ids.foldl (fun acc id =>
      match s.agents.lookup id with
      | some a => acc ++ agentAbsorb id a
      | none => acc) []

/-- `Simulation::calculate_state_hash`. -/
def calculate_state_hash (s : HashSim) : List Nat :=
  sha256 (stateBytes s)

/-- Key order on store entries, for sorting whole entries by identifier. -/
def keyLe (p q : List Nat × HAgent) : Prop := bytesLeP p.1 q.1

instance : DecidableRel keyLe := fun p q =>
  inferInstanceAs (Decidable (bytesLe p.1 q.1 = true))

/-- Stated from the spec's words (§4.3): absorb the tick counter as 8
little-endian bytes, then for each agent in sorted-identifier order absorb
identifier bytes, energy (8 LE), position x/y/z (4 LE each), content
address, parameter bytes; digest with SHA-256. -/
def specFingerprint (s : HashSim) : List Nat :=
  sha256 (u64le s.tick_count ++
    (s.agents.insertionSort keyLe).foldl
      (fun acc p => acc ++ agentAbsorb p.1 p.2) [])

/-! ## Simulation tick and handoff (crates/manifold-node/src/simulation.rs)

Kinematic quantities are exact here, so positions are `Vec3` over `ℚ`
(the real-number reading of the `f32` formulas). -/

/-- `glam::Vec3` with rational components. -/
structure Vec3 where
  x : ℚ
  y : ℚ
  z : ℚ
deriving DecidableEq, Repr

instance : Add Vec3 := ⟨fun a b => ⟨a.x + b.x, a.y + b.y, a.z + b.z⟩⟩
instance : Sub Vec3 := ⟨fun a b => ⟨a.x - b.x, a.y - b.y, a.z - b.z⟩⟩

/-- `Vec3 * f32` (componentwise scale on the right). -/
def Vec3.mulScalar (v : Vec3) (s : ℚ) : Vec3 := ⟨v.x * s, v.y * s, v.z * s⟩

/-- `f32 * Vec3`. -/
def Vec3.smul (s : ℚ) (v : Vec3) : Vec3 := ⟨s * v.x, s * v.y, s * v.z⟩

/-- `glam::Vec3::lerp`: `self + ((rhs - self) * s)`. -/
def Vec3.lerp (a b : Vec3) (s : ℚ) : Vec3 := a + (b - a).mulScalar s

/-- Squared Euclidean norm. `Vec3::distance` is its square root; every use
in scope compares a distance against a nonnegative threshold, and
`dist v w > t ↔ normSq (v - w) > t²` for `t ≥ 0`, so the square suffices
to stay in `ℚ`. -/
def Vec3.normSq (v : Vec3) : ℚ := v.x * v.x + v.y * v.y + v.z * v.z

def Vec3.zero : Vec3 := ⟨0, 0, 0⟩

/-- `Agent` fields used by the tick/handoff paths. -/
structure SAgent where
  id : List Nat
  cid : List Nat
  parameters : List Nat
  energy : Nat
  position : Vec3
  velocity : Vec3
  acceleration : Vec3
  sector_id : Nat
deriving DecidableEq, Repr

/-- `SectorManager` (sector ownership map omitted: no claim touches it). -/
structure SectorManager where
  sector_size : ℚ
  local_sectors : List Nat
deriving DecidableEq, Repr

/-- `SectorManager::new`: claim sector 0. -/
def SectorManager.new (sector_size : ℚ) : SectorManager :=
  ⟨sector_size, [0]⟩

/-- Two's-complement bit pattern of an `i64` value, as a `Nat < 2^64`. -/
def i64wrap (i : Int) : Nat := (Int.emod i (2 ^ 64)).toNat

/-- `SectorManager::position_to_sector`: grid coordinates by
floor-division, spatial hash by wrapping multiply and XOR, reinterpreted
as `u64`. (`f32` division is read exactly over `ℚ`; the `as i64` cast is
the integer floor for in-range values.) -/
def SectorManager.position_to_sector (m : SectorManager) (p : Vec3) : Nat :=
  let gx : Int := Rat.floor (p.x / m.sector_size)
  let gy : Int := Rat.floor (p.y / m.sector_size)
  let gz : Int := Rat.floor (p.z / m.sector_size)
  Nat.xor (Nat.xor (i64wrap (gx * 73856093)) (i64wrap (gy * 19349663)))
    (i64wrap (gz * 83492791))

/-- `SectorManager::is_local_sector`. -/
def SectorManager.is_local_sector (m : SectorManager) (sid : Nat) : Bool :=
  m.local_sectors.contains sid

/-- `AgentHandoff` (wall-clock timestamp omitted: time is an external
input and no claim concerns it). -/
structure AgentHandoff where
  agent : SAgent
  from_sector : Nat
  to_sector : Nat
  source_node : List Nat
deriving DecidableEq, Repr

/-- The `Simulation` struct state. -/
structure Simulation where
  local_peer_id : List Nat
  agents : List (List Nat × SAgent)
  tick_count : Nat
  mutation_rate : ℚ
  sector_manager : SectorManager
  pending_handoffs : List AgentHandoff
deriving DecidableEq, Repr

/-- One agent's fate in `check_sector_boundaries`: unchanged, locally
resectored, or packaged for handoff (`SectorManager::prepare_handoff`). -/
def boundaryStep (m : SectorManager) (selfId : List Nat)
    (p : List Nat × SAgent) : (List Nat × SAgent) ⊕ AgentHandoff :=
  let new_sector := m.position_to_sector p.2.position
  if new_sector = p.2.sector_id then .inl p
  else if m.is_local_sector new_sector then
    .inl (p.1, { p.2 with sector_id := new_sector })
  else .inr ⟨p.2, p.2.sector_id, new_sector, selfId⟩

/-- `Simulation::check_sector_boundaries`: reassign or hand off every
agent whose position has left its sector; handed-off agents are removed
from the store and queued. -/
def Simulation.check_sector_boundaries (s : Simulation) : Simulation :=
  let results := s.agents.map (boundaryStep s.sector_manager s.local_peer_id)
  { s with
    agents := results.filterMap (fun r => match r with
      | .inl p => some p
      | .inr _ => none),
    pending_handoffs := s.pending_handoffs ++ results.filterMap (fun r =>
      match r with
      | .inl _ => none
      | .inr h => some h) }

/-- `Simulation::tick`: bump the counter, then check sector boundaries.
(The remaining phases in the source are TODO comments.) -/
def Simulation.tick (s : Simulation) : Simulation :=
  Simulation.check_sector_boundaries { s with tick_count := s.tick_count + 1 }

/-- `HashMap::insert`: replace the value under an existing key, else append. -/
def assocInsert (l : List (List Nat × SAgent)) (k : List Nat) (v : SAgent) :
    List (List Nat × SAgent) :=
  match l with
  | [] => [(k, v)]
  | (k', v') :: t => if k' = k then (k, v) :: t else (k', v') :: assocInsert t k v

/-- `Simulation::receive_agent_handoff`: reject if the destination sector
is not local, else set the agent's `sector_id` to `to_sector` and insert
under its identifier. -/
def Simulation.receive_agent_handoff (s : Simulation) (h : AgentHandoff) :
    Except String Simulation :=
  if !s.sector_manager.is_local_sector h.to_sector then
    .error "Cannot accept handoff - sector not managed by this node"
  else
    let agent := { h.agent with sector_id := h.to_sector }
    .ok { s with agents := assocInsert s.agents h.agent.id agent }

/-! ## Genome evolution (crates/manifold-node/src/simulation.rs,
`Simulation::evolve_offspring`)

The RNG is passed as explicit oracles: the crossover point drawn from
`0..min(|pA|,|pB|)`, and for each offspring byte index an optional bit
position, `some bit` when the `μ`-probability mutation fired for that byte
(`μ = 0` is the oracle that always answers `none`). -/

/-- `Genome` (CID as its UTF-8 bytes). -/
structure Genome where
  cid : List Nat
  parameters : List Nat
deriving DecidableEq, Repr

/-- The mutation oracle corresponding to mutation rate `μ = 0`. -/
def noMutation : Nat → Option Nat := fun _ => none

/-- `Simulation::evolve_offspring`: clone parent A's genome if either
parameter vector is empty; else single-point crossover
`pA[0..k] ++ pB[k..]`, padded with `pA[|pB|..]` when `|pA| > |pB|`, then
per-byte bit-flip mutation. -/
def evolve_offspring (parent_a parent_b : Genome) (crossover_point : Nat)
    (mutDraw : Nat → Option Nat) : Genome :=
  let params_a := parent_a.parameters
  let params_b := parent_b.parameters
  if params_a = [] ∨ params_b = [] then ⟨parent_a.cid, params_a⟩
  else
    let offspring0 := params_a.take crossover_point ++
      params_b.drop crossover_point
    let offspring1 :=
      if params_a.length > crossover_point + params_b.length - crossover_point
      then offspring0 ++ params_a.drop params_b.length
      else offspring0
    let mutated := offspring1.enum.map (fun p =>
      match mutDraw p.1 with
      | some bit => p.2 ^^^ (1 <<< bit)
      | none => p.2)
    ⟨parent_a.cid, mutated⟩

/-! ## Dead reckoning (crates/observer-client/src/dead_reckoning.rs)

`Instant::elapsed` is the explicit `dt` argument of `predict`. -/

/-- `PredictedAgent` (the `last_update` instant is modelled by passing
elapsed time explicitly). -/
structure PredictedAgent where
  authoritative_position : Vec3
  authoritative_velocity : Vec3
  authoritative_acceleration : Vec3
  predicted_position : Vec3
  predicted_velocity : Vec3
deriving DecidableEq, Repr

/-- `f32::clamp`. -/
def clampQ (x lo hi : ℚ) : ℚ := min (max x lo) hi

/-- `PredictedAgent::update_authoritative`: blend the predicted position
toward the new authoritative one, replace the authoritative state, and
reset predicted velocity. -/
def PredictedAgent.update_authoritative (ag : PredictedAgent)
    (position velocity acceleration : Vec3) (blend_factor : ℚ) :
    PredictedAgent :=
  { predicted_position :=
      ag.predicted_position.lerp position (clampQ blend_factor 0 1),
    authoritative_position := position,
    authoritative_velocity := velocity,
    authoritative_acceleration := acceleration,
    predicted_velocity := velocity }

/-- `PredictedAgent::predict`: kinematic extrapolation
`p₀ + v₀·dt + 0.5·a·dt·dt` from the authoritative state; stores and
returns the new prediction. -/
def PredictedAgent.predict (ag : PredictedAgent) (dt : ℚ) :
    PredictedAgent × Vec3 :=
  let p := ag.authoritative_position + ag.authoritative_velocity.mulScalar dt +
    ((Vec3.smul (1 / 2) ag.authoritative_acceleration).mulScalar dt).mulScalar dt
  let v := ag.authoritative_velocity +
    ag.authoritative_acceleration.mulScalar dt
  ({ ag with predicted_position := p, predicted_velocity := v }, p)

/-- `PredictedAgent::prediction_error`, squared (see `Vec3.normSq`): the
distance between the predicted and the (stored) authoritative position. -/
def PredictedAgent.predictionErrorSq (ag : PredictedAgent) : ℚ :=
  (ag.predicted_position - ag.authoritative_position).normSq

/-- `PredictedAgent::needs_correction`: prediction error exceeds the
threshold (squared comparison; equivalent for nonnegative thresholds). -/
def PredictedAgent.needsCorrection (ag : PredictedAgent) (max_error : ℚ) :
    Bool :=
  decide (max_error * max_error < ag.predictionErrorSq)

/-- `DeadReckoning` engine parameters. -/
structure DeadReckoning where
  blend_factor : ℚ
  smoothing_alpha : ℚ
  max_error_threshold : ℚ
deriving DecidableEq, Repr

/-- `DeadReckoning::new`: blend 0.3, smoothing 0.2, snap threshold 10. -/
def DeadReckoning.new : DeadReckoning := ⟨3 / 10, 1 / 5, 10⟩

/-- The `blend` chosen inside `DeadReckoning::update_agent`: 1 (snap) when
the stored prediction error exceeds the threshold, else the engine's
blend factor. -/
def DeadReckoning.chosenBlend (dr : DeadReckoning) (ag : PredictedAgent) : ℚ :=
  if ag.needsCorrection dr.max_error_threshold then 1 else dr.blend_factor

/-- `DeadReckoning::update_agent`. -/
def DeadReckoning.update_agent (dr : DeadReckoning) (ag : PredictedAgent)
    (position velocity acceleration : Vec3) : PredictedAgent :=
  ag.update_authoritative position velocity acceleration (dr.chosenBlend ag)

/-! ## Theorems: consensus -/

/-- If `check` returns `Achieved a t` the counts are echoed back and the
threshold condition held. -/
theorem check_achieved_inv {ac tc rp a t : Nat}
    (h : ConsensusResult.check ac tc rp = .Achieved a t) :
    a = ac ∧ t = tc ∧ rp ≤ tc ∧ rp * 2 / 3 < ac := by
  unfold ConsensusResult.check at h
  by_cases h1 : tc < rp
  · simp [h1] at h
  · by_cases h2 : rp * 2 / 3 < ac
    · simp [h1, h2] at h
      exact ⟨h.1.symm, h.2.symm, Nat.not_lt.mp h1, h2⟩
    · simp [h1, h2] at h

/-- C1: the vote tally with `required_peers = |known_peers| + 1` is Pending
exactly below the participation bar; at or above it, Achieved exactly when
`agree_count > ⌊2·required_peers/3⌋` and Failed otherwise; in particular
`⌊2N/3⌋` agreements fail and `⌊2N/3⌋ + 1` agreements succeed. -/
theorem vote_tally_threshold :
    (∀ (agree_count total_count known_peers : Nat),
      ConsensusResult.check agree_count total_count (known_peers + 1) =
          ConsensusResult.Pending ↔ total_count < known_peers + 1) ∧
    (∀ (agree_count total_count required_peers : Nat),
      required_peers ≤ total_count →
        (ConsensusResult.check agree_count total_count required_peers =
            ConsensusResult.Achieved agree_count total_count ↔
          2 * required_peers / 3 < agree_count)) ∧
    (∀ (agree_count total_count required_peers : Nat),
      required_peers ≤ total_count →
        (ConsensusResult.check agree_count total_count required_peers =
            ConsensusResult.Failed agree_count total_count ↔
          agree_count ≤ 2 * required_peers / 3)) ∧
    (∀ (N total_count : Nat), N ≤ total_count →
      ConsensusResult.check (2 * N / 3) total_count N =
          ConsensusResult.Failed (2 * N / 3) total_count ∧
      ConsensusResult.check (2 * N / 3 + 1) total_count N =
          ConsensusResult.Achieved (2 * N / 3 + 1) total_count) := by
  refine ⟨?_, ?_, ?_, ?_⟩
  · intro a t k
    unfold ConsensusResult.check
    by_cases h : t < k + 1
    · simp [h]
    · simp only [h, if_false]
      split <;> simp [h]
  · intro a t r hr
    unfold ConsensusResult.check
    have h1 : ¬ t < r := Nat.not_lt.mpr hr
    have h3 : r * 2 / 3 = 2 * r / 3 := by rw [Nat.mul_comm]
    simp only [h1, if_false, h3]
    by_cases h2 : 2 * r / 3 < a
    · simp [h2]
    · simp [h2]
  · intro a t r hr
    unfold ConsensusResult.check
    have h1 : ¬ t < r := Nat.not_lt.mpr hr
    have h3 : r * 2 / 3 = 2 * r / 3 := by rw [Nat.mul_comm]
    simp only [h1, if_false, h3]
    by_cases h2 : 2 * r / 3 < a
    · simp [h2, Nat.not_le.mpr h2]
    · simp [h2, Nat.not_lt.mp h2]
  · intro N t hN
    unfold ConsensusResult.check
    have h1 : ¬ t < N := Nat.not_lt.mpr hN
    have h3 : N * 2 / 3 = 2 * N / 3 := by rw [Nat.mul_comm]
    constructor
    · simp [h1, h3]
    · simp [h1, h3]

/-- Witness for C1 at the spec's four-node scenario (`required = 4`,
threshold `⌊8/3⌋ = 2`). -/
theorem vote_tally_threshold_witness :
    ((4 : Nat) ≤ 4) ∧
    ConsensusResult.check (2 * 4 / 3) 4 4 =
      ConsensusResult.Failed (2 * 4 / 3) 4 ∧
    ConsensusResult.check (2 * 4 / 3 + 1) 4 4 =
      ConsensusResult.Achieved (2 * 4 / 3 + 1) 4 :=
  ⟨by decide, (vote_tally_threshold.2.2.2 4 4 (by decide)).1,
   (vote_tally_threshold.2.2.2 4 4 (by decide)).2⟩

/-- C6: with a non-empty peer set, the elected leader is element
`round_id mod N` of the identifier-sorted list `{self} ∪ known_peers`
(the source sorts `known_peers ++ [self]`; both sorts agree because the
lists are permutations); rounds 0–3 with peers "P-a", "P-b" and self
"P-m" elect "P-a", "P-b", "P-m", "P-a". -/
theorem leader_round_robin :
    (∀ (round_id : Nat) (known_peers : List (List Nat)) (selfId : List Nat),
      known_peers ≠ [] →
        electLeader round_id known_peers selfId =
          ((selfId :: known_peers).insertionSort bytesLeP)[round_id %
            (known_peers.length + 1)]?) ∧
    (electLeader 0 [[80,45,97],[80,45,98]] [80,45,109] = some [80,45,97] ∧
     electLeader 1 [[80,45,97],[80,45,98]] [80,45,109] = some [80,45,98] ∧
     electLeader 2 [[80,45,97],[80,45,98]] [80,45,109] = some [80,45,109] ∧
     electLeader 3 [[80,45,97],[80,45,98]] [80,45,109] = some [80,45,97]) := by
  constructor
  · intro r peers selfId hne
    obtain ⟨a, as, rfl⟩ := List.exists_cons_of_ne_nil hne
    have hsort : ((a :: as) ++ [selfId]).insertionSort bytesLeP =
        (selfId :: a :: as).insertionSort bytesLeP :=
      List.eq_of_perm_of_sorted
        ((List.perm_insertionSort _ _).trans
          ((List.perm_append_singleton _ _).trans
            (List.perm_insertionSort _ _).symm))
        (List.sorted_insertionSort _ _) (List.sorted_insertionSort _ _)
    simp only [electLeader, List.isEmpty_cons, Bool.false_eq_true, if_false,
      hsort, List.length_insertionSort, List.length_cons, List.length_append]
  · exact ⟨by decide, by decide, by decide, by decide⟩

/-- Witness for C6 at the spec's scenario, round 0. -/
theorem leader_round_robin_witness :
    ([[80,45,97],[80,45,98]] : List (List Nat)) ≠ [] ∧
    electLeader 0 [[80,45,97],[80,45,98]] [80,45,109] =
      (([80,45,109] :: [[80,45,97],[80,45,98]]).insertionSort
          bytesLeP)[0 % (([[80,45,97],[80,45,98]] : List (List Nat)).length + 1)]? :=
  ⟨by decide,
   leader_round_robin.1 0 [[80,45,97],[80,45,98]] [80,45,109] (by decide)⟩

/-- C5 (counterexample): three agreeing votes all carrying the proposal's
hash (all ones) are pending; a fourth, disagreeing vote carrying a
different hash (all twos) completes the round as Achieved — and the
broadcast `StateCommit` carries the disagreeing voter's hash, not the
canonical fingerprint the agreeing votes certified. -/
theorem commit_hash_counterexample :
    (handleVoteResponse
        [⟨0, [112,49], true, List.replicate 32 1⟩,
         ⟨0, [112,50], true, List.replicate 32 1⟩,
         ⟨0, [112,51], true, List.replicate 32 1⟩]
        ⟨0, [112,52], false, List.replicate 32 2⟩ 3 7).2 =
      some ⟨0, 7, List.replicate 32 2, 4⟩ ∧
    (List.replicate 32 (2 : Nat)) ≠ List.replicate 32 1 := by
  exact ⟨by decide, by decide⟩

/-- C5 (amended): whenever the tally emits a commit, the commit's
`state_hash` is the `voter_hash` of the vote whose arrival completed the
round (equal to the proposal's hash only when that vote agreed), and
`vote_count` is the number of votes received. -/
theorem commit_fields_from_final_vote :
    ∀ (pending : List StateVote) (response : StateVote)
      (knownPeersLen tick : Nat) (commit : StateCommit),
      (handleVoteResponse pending response knownPeersLen tick).2 =
        some commit →
      commit.state_hash = response.voter_hash ∧
      commit.vote_count = (pending ++ [response]).length ∧
      commit.round_id = response.round_id ∧ commit.tick = tick := by
  intro pending response k tick commit h
  simp only [handleVoteResponse] at h
  split at h
  case _ a t heq =>
    obtain ⟨-, ht, -, -⟩ := check_achieved_inv heq
    cases h
    exact ⟨rfl, ht, rfl, rfl⟩
  case _ => simp at h

/-- Witness for C5's amended statement, at the counterexample round. -/
theorem commit_fields_witness :
    (handleVoteResponse
        [⟨0, [112,49], true, List.replicate 32 1⟩,
         ⟨0, [112,50], true, List.replicate 32 1⟩,
         ⟨0, [112,51], true, List.replicate 32 1⟩]
        ⟨0, [112,52], false, List.replicate 32 2⟩ 3 7).2 =
      some ⟨0, 7, List.replicate 32 2, 4⟩ ∧
    (StateCommit.mk 0 7 (List.replicate 32 2) 4).state_hash =
      (StateVote.mk 0 [112,52] false (List.replicate 32 2)).voter_hash := by
  refine ⟨by decide, ?_⟩
  exact (commit_fields_from_final_vote
    [⟨0, [112,49], true, List.replicate 32 1⟩,
     ⟨0, [112,50], true, List.replicate 32 1⟩,
     ⟨0, [112,51], true, List.replicate 32 1⟩]
    ⟨0, [112,52], false, List.replicate 32 2⟩ 3 7
    ⟨0, 7, List.replicate 32 2, 4⟩ (by decide)).1

/-! ## Theorems: genome evolution -/

/-- C7: with `μ = 0` and non-empty parents, the offspring keeps parent A's
content address and its parameters begin with `pA[0..k] ++ pB[k..]`; with
an empty parent the offspring is a clone of A's genome; the spec's
concrete crossover ("QmTest1"/255s × "QmTest2"/0s at k = 4) comes out as
four 255-bytes then six 0-bytes under A's CID. -/
theorem offspring_crossover_mu0 :
    (∀ (parent_a parent_b : Genome) (k : Nat),
      parent_a.parameters ≠ [] → parent_b.parameters ≠ [] →
      k < min parent_a.parameters.length parent_b.parameters.length →
      (evolve_offspring parent_a parent_b k noMutation).cid = parent_a.cid ∧
      ∃ rest, (evolve_offspring parent_a parent_b k noMutation).parameters =
        parent_a.parameters.take k ++ parent_b.parameters.drop k ++ rest) ∧
    (∀ (parent_a parent_b : Genome) (k : Nat) (mutDraw : Nat → Option Nat),
      parent_a.parameters = [] ∨ parent_b.parameters = [] →
      evolve_offspring parent_a parent_b k mutDraw = parent_a) ∧
    (evolve_offspring ⟨[81,109,84,101,115,116,49], List.replicate 10 255⟩
        ⟨[81,109,84,101,115,116,50], List.replicate 10 0⟩ 4 noMutation =
      ⟨[81,109,84,101,115,116,49],
       [255,255,255,255,0,0,0,0,0,0]⟩) := by
  refine ⟨?_, ?_, by decide⟩
  · intro pa pb k hA hB _
    have hAB : ¬ (pa.parameters = [] ∨ pb.parameters = []) := by
      simp [hA, hB]
    constructor
    · simp [evolve_offspring, hAB]
    · simp only [evolve_offspring, hAB, if_false, noMutation]
      split
      · exact ⟨pa.parameters.drop pb.parameters.length, by
          simp [List.enum_map_snd, List.append_assoc]⟩
      · exact ⟨[], by simp [List.enum_map_snd]⟩
  · intro pa pb k mutDraw hor
    simp only [evolve_offspring, hor, if_true]

/-- Witness for C7 at the spec's concrete parents. -/
theorem offspring_crossover_mu0_witness :
    (List.replicate 10 (255 : Nat) ≠ []) ∧
    (List.replicate 10 (0 : Nat) ≠ []) ∧
    (4 < min (List.replicate 10 (255 : Nat)).length
        (List.replicate 10 (0 : Nat)).length) ∧
    ((evolve_offspring ⟨[81,109,84,101,115,116,49], List.replicate 10 255⟩
        ⟨[81,109,84,101,115,116,50], List.replicate 10 0⟩ 4
        noMutation).cid = [81,109,84,101,115,116,49] ∧
     ∃ rest,
       (evolve_offspring ⟨[81,109,84,101,115,116,49], List.replicate 10 255⟩
          ⟨[81,109,84,101,115,116,50], List.replicate 10 0⟩ 4
          noMutation).parameters =
        (List.replicate 10 255).take 4 ++ (List.replicate 10 0).drop 4 ++
          rest) :=
  ⟨by decide, by decide, by decide,
   offspring_crossover_mu0.1
     ⟨[81,109,84,101,115,116,49], List.replicate 10 255⟩
     ⟨[81,109,84,101,115,116,50], List.replicate 10 0⟩ 4
     (by decide) (by decide) (by decide)⟩

/-- C10: for non-empty parents and a crossover point below
`min(|pA|,|pB|)`, the offspring parameter vector has length
`max(|pA|,|pB|)` under any mutation draw; when `|pA| > |pB|` the unmutated
offspring is `pA[0..k] ++ pB[k..] ++ pA[|pB|..]`. -/
theorem offspring_length_max :
    ∀ (parent_a parent_b : Genome) (k : Nat) (mutDraw : Nat → Option Nat),
      parent_a.parameters ≠ [] → parent_b.parameters ≠ [] →
      k < min parent_a.parameters.length parent_b.parameters.length →
      (evolve_offspring parent_a parent_b k mutDraw).parameters.length =
        max parent_a.parameters.length parent_b.parameters.length ∧
      (parent_b.parameters.length < parent_a.parameters.length →
        (evolve_offspring parent_a parent_b k noMutation).parameters =
          parent_a.parameters.take k ++ parent_b.parameters.drop k ++
            parent_a.parameters.drop parent_b.parameters.length) := by
  intro pa pb k mutDraw hA hB hk
  have hAB : ¬ (pa.parameters = [] ∨ pb.parameters = []) := by simp [hA, hB]
  have hka : k ≤ pa.parameters.length := by omega
  have hkb : k ≤ pb.parameters.length := by omega
  constructor
  · simp only [evolve_offspring, hAB, if_false]
    split
    case _ hlen =>
      simp only [List.length_map, List.enum_length, List.length_append,
        List.length_take, List.length_drop]
      omega
    case _ hlen =>
      simp only [List.length_map, List.enum_length, List.length_append,
        List.length_take, List.length_drop]
      omega
  · intro hba
    simp only [evolve_offspring, hAB, if_false, noMutation]
    have hlen : pa.parameters.length >
        k + pb.parameters.length - k := by omega
    simp only [hlen, if_true]
    simp [List.enum_map_snd, List.append_assoc]

/-- Witness for C10: parents of lengths 10 and 6, crossover at 3. -/
theorem offspring_length_max_witness :
    (List.replicate 10 (7 : Nat) ≠ []) ∧
    (List.replicate 6 (9 : Nat) ≠ []) ∧
    (3 < min (List.replicate 10 (7 : Nat)).length
        (List.replicate 6 (9 : Nat)).length) ∧
    ((evolve_offspring ⟨[81], List.replicate 10 7⟩ ⟨[82], List.replicate 6 9⟩
        3 noMutation).parameters.length =
      max (List.replicate 10 (7 : Nat)).length
        (List.replicate 6 (9 : Nat)).length ∧
     ((List.replicate 6 (9 : Nat)).length <
          (List.replicate 10 (7 : Nat)).length →
       (evolve_offspring ⟨[81], List.replicate 10 7⟩
          ⟨[82], List.replicate 6 9⟩ 3 noMutation).parameters =
         (List.replicate 10 7).take 3 ++ (List.replicate 6 9).drop 3 ++
           (List.replicate 10 7).drop (List.replicate 6 (9 : Nat)).length)) :=
  ⟨by decide, by decide, by decide,
   offspring_length_max ⟨[81], List.replicate 10 7⟩ ⟨[82], List.replicate 6 9⟩
     3 noMutation (by decide) (by decide) (by decide)⟩

/-! ## Theorems: dead reckoning -/

theorem Vec3.ext' {a b : Vec3} (hx : a.x = b.x) (hy : a.y = b.y)
    (hz : a.z = b.z) : a = b := by
  cases a; cases b; simp_all

theorem Vec3.add_def (a b : Vec3) :
    a + b = ⟨a.x + b.x, a.y + b.y, a.z + b.z⟩ := rfl

theorem Vec3.sub_def (a b : Vec3) :
    a - b = ⟨a.x - b.x, a.y - b.y, a.z - b.z⟩ := rfl

/-- C9: `predict` computes `p₀ + v₀·dt + ½·a·dt²` from the authoritative
state alone — the result is independent of the stored predicted position
and velocity, any blended position from `update_authoritative` is
discarded by the next `predict`, and predicting twice with the same
elapsed time gives the same result. -/
theorem predict_pure_kinematics :
    (∀ (ag : PredictedAgent) (dt : ℚ),
      (ag.predict dt).2 = ag.authoritative_position +
        ag.authoritative_velocity.mulScalar dt +
        (Vec3.smul (1 / 2) ag.authoritative_acceleration).mulScalar
          (dt * dt)) ∧
    (∀ (ag : PredictedAgent) (p q : Vec3) (dt : ℚ),
      (PredictedAgent.predict
          { ag with predicted_position := p, predicted_velocity := q }
          dt).2 = (ag.predict dt).2) ∧
    (∀ (ag : PredictedAgent) (p v a : Vec3) (b dt : ℚ),
      ((ag.update_authoritative p v a b).predict dt).2 =
        p + v.mulScalar dt +
          (Vec3.smul (1 / 2) a).mulScalar (dt * dt)) ∧
    (∀ (ag : PredictedAgent) (dt : ℚ),
      (((ag.predict dt).1).predict dt).2 = (ag.predict dt).2) := by
  refine ⟨?_, ?_, ?_, ?_⟩
  · intro ag dt
    refine Vec3.ext' ?_ ?_ ?_ <;>
      simp [PredictedAgent.predict, Vec3.add_def, Vec3.mulScalar,
        Vec3.smul] <;> ring
  · intro ag p q dt
    rfl
  · intro ag p v a b dt
    refine Vec3.ext' ?_ ?_ ?_ <;>
      simp [PredictedAgent.predict, PredictedAgent.update_authoritative,
        Vec3.add_def, Vec3.mulScalar, Vec3.smul] <;> ring
  · intro ag dt
    rfl

/-- C8 (counterexample): predicted position (20,0,0) whose stored
authoritative position is also (20,0,0); an authoritative update arrives
at (0,0,0). The distance from the current prediction to the arriving
position is 20 > 10 (squared: 400 > 100), so the claim demands a snap to
(0,0,0) — but the source tests the error against the OLD authoritative
position (which is 0 here), picks blend 0.3, and lands at (14,0,0). -/
theorem snap_claim_counterexample :
    (((PredictedAgent.mk ⟨20,0,0⟩ Vec3.zero Vec3.zero ⟨20,0,0⟩
        Vec3.zero).predicted_position - Vec3.zero).normSq >
      DeadReckoning.new.max_error_threshold *
        DeadReckoning.new.max_error_threshold) ∧
    (DeadReckoning.new.update_agent
        (PredictedAgent.mk ⟨20,0,0⟩ Vec3.zero Vec3.zero ⟨20,0,0⟩ Vec3.zero)
        Vec3.zero Vec3.zero Vec3.zero).predicted_position = ⟨14, 0, 0⟩ ∧
    (Vec3.mk 14 0 0) ≠ Vec3.zero := by
  refine ⟨?_, ?_, ?_⟩
  · simp only [Vec3.normSq, Vec3.sub_def, Vec3.zero, DeadReckoning.new,
      gt_iff_lt]
    norm_num
  · have hnc : (PredictedAgent.mk ⟨20,0,0⟩ Vec3.zero Vec3.zero ⟨20,0,0⟩
        Vec3.zero).needsCorrection DeadReckoning.new.max_error_threshold =
        false := by
      simp only [PredictedAgent.needsCorrection,
        PredictedAgent.predictionErrorSq, Vec3.normSq, Vec3.sub_def,
        DeadReckoning.new, decide_eq_false_iff_not]
      norm_num
    simp only [DeadReckoning.update_agent, DeadReckoning.chosenBlend, hnc,
      Bool.false_eq_true, if_false, PredictedAgent.update_authoritative]
    have hcl : clampQ (3 / 10) 0 1 = 3 / 10 := by norm_num [clampQ]
    refine Vec3.ext' ?_ ?_ ?_ <;>
      · simp [DeadReckoning.new, hcl, Vec3.lerp, Vec3.add_def, Vec3.sub_def,
          Vec3.mulScalar, Vec3.zero]
        try norm_num
  · intro h
    have hx := congrArg Vec3.x h
    norm_num [Vec3.zero] at hx

/-- C8 (amended): when the distance between the current predicted position
and the PREVIOUS authoritative position exceeds the (nonnegative) snap
threshold, the blend is set to 1 and the post-update predicted position is
exactly the arriving authoritative position. -/
theorem snap_on_stored_error :
    ∀ (dr : DeadReckoning) (ag : PredictedAgent) (p v a : Vec3),
      0 ≤ dr.max_error_threshold →
      dr.max_error_threshold * dr.max_error_threshold <
        ag.predictionErrorSq →
      dr.chosenBlend ag = 1 ∧
      (dr.update_agent ag p v a).predicted_position = p := by
  intro dr ag p v a h0 herr
  have hb : dr.chosenBlend ag = 1 := by
    simp [DeadReckoning.chosenBlend, PredictedAgent.needsCorrection, herr]
  refine ⟨hb, ?_⟩
  simp only [DeadReckoning.update_agent,
    PredictedAgent.update_authoritative, hb]
  have hc : clampQ 1 0 1 = 1 := by norm_num [clampQ]
  rw [hc]
  refine Vec3.ext' ?_ ?_ ?_ <;>
    simp [Vec3.lerp, Vec3.add_def, Vec3.sub_def, Vec3.mulScalar]

/-- Witness for C8's amended statement: the spec's snap scenario with the
previous authoritative position at the origin. -/
theorem snap_on_stored_error_witness :
    (0 : ℚ) ≤ DeadReckoning.new.max_error_threshold ∧
    DeadReckoning.new.max_error_threshold *
        DeadReckoning.new.max_error_threshold <
      (PredictedAgent.mk Vec3.zero Vec3.zero Vec3.zero ⟨20,0,0⟩
        Vec3.zero).predictionErrorSq ∧
    (DeadReckoning.new.chosenBlend
        (PredictedAgent.mk Vec3.zero Vec3.zero Vec3.zero ⟨20,0,0⟩
          Vec3.zero) = 1 ∧
     (DeadReckoning.new.update_agent
        (PredictedAgent.mk Vec3.zero Vec3.zero Vec3.zero ⟨20,0,0⟩ Vec3.zero)
        Vec3.zero Vec3.zero Vec3.zero).predicted_position = Vec3.zero) :=
  ⟨by norm_num [DeadReckoning.new],
   by
     simp only [DeadReckoning.new, PredictedAgent.predictionErrorSq,
       Vec3.normSq, Vec3.sub_def, Vec3.zero]
     norm_num,
   snap_on_stored_error DeadReckoning.new
     (PredictedAgent.mk Vec3.zero Vec3.zero Vec3.zero ⟨20,0,0⟩ Vec3.zero)
     Vec3.zero Vec3.zero Vec3.zero (by norm_num [DeadReckoning.new])
     (by
       simp only [DeadReckoning.new, PredictedAgent.predictionErrorSq,
         Vec3.normSq, Vec3.sub_def, Vec3.zero]
       norm_num)⟩

/-! ## Theorems: simulation tick and handoff -/

/-- An agent with nonzero velocity sitting at the origin, whose sector id
matches its position, so a tick neither resectors nor removes it. -/
def stillAgent : SAgent :=
  { id := [65], cid := [81], parameters := [0], energy := 100,
    position := Vec3.zero, velocity := ⟨1, 0, 0⟩,
    acceleration := Vec3.zero,
    sector_id := (SectorManager.new 100).position_to_sector Vec3.zero }

/-- A one-agent simulation holding `stillAgent`. -/
def stillSim : Simulation :=
  { local_peer_id := [109], agents := [([65], stillAgent)],
    tick_count := 0, mutation_rate := 1 / 100,
    sector_manager := SectorManager.new 100, pending_handoffs := [] }

/-- C3 (counterexample): an agent with velocity (1,0,0) is completely
unchanged by a tick — its position stays (0,0,0) although the claimed
kinematic integration with the 100 ms tick period (Δt = 1/10) would move
it to (1/10, 0, 0). The source's `tick` only advances the counter and
checks sector boundaries. -/
theorem tick_kinematics_counterexample :
    (Simulation.tick stillSim).agents.lookup [65] = some stillAgent ∧
    stillAgent.velocity = ⟨1, 0, 0⟩ ∧
    stillAgent.position ≠ stillAgent.position +
      stillAgent.velocity.mulScalar (1 / 10) +
      (Vec3.smul (1 / 2) stillAgent.acceleration).mulScalar
        ((1 / 10) * (1 / 10)) := by
  refine ⟨?_, rfl, ?_⟩
  · simp [Simulation.tick, Simulation.check_sector_boundaries, boundaryStep,
      stillSim, stillAgent, List.lookup]
  · intro h
    have hx := congrArg Vec3.x h
    norm_num [stillAgent, Vec3.zero, Vec3.add_def, Vec3.mulScalar,
      Vec3.smul] at hx

/-- C3 (amended): a tick increments the tick counter and only ever
reassigns sector ids or removes agents for handoff — every agent still in
the store after a tick has its position and velocity unchanged; no
kinematic integration happens. -/
theorem tick_preserves_kinematic_state :
    ∀ s : Simulation,
      (s.tick).tick_count = s.tick_count + 1 ∧
      ∀ p ∈ (s.tick).agents, ∃ ag₀ : SAgent,
        (p.1, ag₀) ∈ s.agents ∧
        p.2.position = ag₀.position ∧ p.2.velocity = ag₀.velocity := by
  intro s
  constructor
  · rfl
  · intro p hp
    have hp2 : ∃ q ∈ s.agents,
        (match boundaryStep s.sector_manager s.local_peer_id q with
          | .inl kept => some kept
          | .inr _ => none) = some p := by
      simpa [Simulation.tick, Simulation.check_sector_boundaries,
        List.mem_filterMap, List.mem_map, List.filterMap_map] using hp
    obtain ⟨q, hq, hqr⟩ := hp2
    rcases hb : boundaryStep s.sector_manager s.local_peer_id q with kept | lost
    · rw [hb] at hqr
      have hkp : kept = p := by injection hqr
      subst hkp
      simp only [boundaryStep] at hb
      split at hb
      · have hqp : q = kept := by injection hb
        subst hqp
        exact ⟨q.2, by simpa using hq, rfl, rfl⟩
      · split at hb
        · have hqp : (q.1, { q.2 with sector_id :=
              s.sector_manager.position_to_sector q.2.position }) = kept := by
            injection hb
          subst hqp
          exact ⟨q.2, by simpa using hq, rfl, rfl⟩
        · cases hb
    · rw [hb] at hqr
      cases hqr

/-- Witness for C3's amended statement at the counterexample state. -/
theorem tick_preserves_kinematic_state_witness :
    (Simulation.tick stillSim).tick_count = stillSim.tick_count + 1 ∧
    ∀ p ∈ (Simulation.tick stillSim).agents, ∃ ag₀ : SAgent,
      (p.1, ag₀) ∈ stillSim.agents ∧
      p.2.position = ag₀.position ∧ p.2.velocity = ag₀.velocity :=
  tick_preserves_kinematic_state stillSim

/-- Looking up the inserted key after a `HashMap::insert` finds the new
value. -/
theorem assocInsert_lookup (l : List (List Nat × SAgent)) (k : List Nat)
    (v : SAgent) : (assocInsert l k v).lookup k = some v := by
  induction l with
  | nil => simp [assocInsert, List.lookup]
  | cons q t ih =>
    obtain ⟨k2, v2⟩ := q
    by_cases h : k2 = k
    · simp [assocInsert, h, List.lookup]
    · have hne : (k == k2) = false := by
        simp [beq_eq_false_iff_ne]
        exact fun he => h he.symm
      simpa [assocInsert, h, List.lookup, hne] using ih

/-- The agent already stored under id [88] (energy 100). -/
def storedAgent : SAgent :=
  { id := [88], cid := [81], parameters := [1], energy := 100,
    position := Vec3.zero, velocity := Vec3.zero,
    acceleration := Vec3.zero, sector_id := 0 }

/-- An arriving agent with the same id [88] but energy 50. -/
def arrivingAgent : SAgent :=
  { id := [88], cid := [81], parameters := [1], energy := 50,
    position := Vec3.zero, velocity := Vec3.zero,
    acceleration := Vec3.zero, sector_id := 5 }

/-- A simulation that already stores `storedAgent` and owns sector 0. -/
def dupStore : Simulation :=
  { local_peer_id := [109], agents := [([88], storedAgent)],
    tick_count := 0, mutation_rate := 1 / 100,
    sector_manager := ⟨100, [0]⟩, pending_handoffs := [] }

/-- A handoff delivering `arrivingAgent` into local sector 0. -/
def dupHandoff : AgentHandoff := ⟨arrivingAgent, 5, 0, [110]⟩

/-- C4 (counterexample): the store already holds agent id [88] with energy
100; an inbound handoff for the same id (energy 50, destination sector 0,
which is local) is ACCEPTED, and the stored agent is replaced by the
arriving one — not rejected, not unchanged. -/
theorem handoff_duplicate_counterexample :
    dupStore.receive_agent_handoff dupHandoff =
      .ok { dupStore with
              agents := [([88], { arrivingAgent with sector_id := 0 })] } ∧
    ({ arrivingAgent with sector_id := 0 } : SAgent) ≠ storedAgent := by
  constructor
  · simp [Simulation.receive_agent_handoff, SectorManager.is_local_sector,
      assocInsert, dupStore, dupHandoff, arrivingAgent, storedAgent]
  · intro h
    have he := congrArg SAgent.energy h
    simp [arrivingAgent, storedAgent] at he

/-- C4 (amended): an inbound handoff whose destination sector is local is
always accepted: the agent's `sector_id` is set to `to_sector` and it is
inserted into the store under its identifier, replacing any agent already
stored there. -/
theorem handoff_local_inserts :
    ∀ (s : Simulation) (h : AgentHandoff),
      s.sector_manager.is_local_sector h.to_sector = true →
      ∃ s2, s.receive_agent_handoff h = .ok s2 ∧
        s2.agents.lookup h.agent.id =
          some { h.agent with sector_id := h.to_sector } := by
  intro s h hl
  refine ⟨{ s with
              agents := assocInsert s.agents h.agent.id
                { h.agent with sector_id := h.to_sector } }, ?_, ?_⟩
  · simp [Simulation.receive_agent_handoff, hl]
  · exact assocInsert_lookup s.agents h.agent.id
      { h.agent with sector_id := h.to_sector }

/-- Witness for C4's amended statement at the duplicate-id scenario. -/
theorem handoff_local_inserts_witness :
    dupStore.sector_manager.is_local_sector dupHandoff.to_sector = true ∧
    ∃ s2, dupStore.receive_agent_handoff dupHandoff = .ok s2 ∧
      s2.agents.lookup dupHandoff.agent.id =
        some { dupHandoff.agent with sector_id := dupHandoff.to_sector } :=
  ⟨by simp [dupStore, dupHandoff, SectorManager.is_local_sector],
   handoff_local_inserts dupStore dupHandoff
     (by simp [dupStore, dupHandoff, SectorManager.is_local_sector])⟩

/-! ## Theorems: state fingerprint -/

/-- Sorting store entries by key commutes with projecting the keys
(single insertion step). -/
theorem map_fst_orderedInsert (p : List Nat × HAgent) :
    ∀ l : List (List Nat × HAgent),
      (List.orderedInsert keyLe p l).map Prod.fst =
        List.orderedInsert bytesLeP p.1 (l.map Prod.fst) := by
  intro l
  induction l with
  | nil => rfl
  | cons q t ih =>
    by_cases h : bytesLeP p.1 q.1
    · have h2 : keyLe p q := h
      simp [List.orderedInsert, h, h2]
    · have h2 : ¬ keyLe p q := h
      simp [List.orderedInsert, h, h2, ih]

/-- Sorting store entries by key commutes with projecting the keys. -/
theorem map_fst_insertionSort :
    ∀ l : List (List Nat × HAgent),
      (l.insertionSort keyLe).map Prod.fst =
        (l.map Prod.fst).insertionSort bytesLeP := by
  intro l
  induction l with
  | nil => rfl
  | cons q t ih => simp [List.insertionSort, map_fst_orderedInsert, ih]

/-- In a store with no duplicate identifiers, looking up a member entry's
key finds exactly that entry's agent. -/
theorem lookup_eq_of_mem_nodup :
    ∀ l : List (List Nat × HAgent), (l.map Prod.fst).Nodup →
      ∀ {k : List Nat} {v : HAgent}, (k, v) ∈ l → l.lookup k = some v := by
  intro l
  induction l with
  | nil => intro _ k v hm; cases hm
  | cons q t ih =>
    intro hn k v hm
    obtain ⟨k2, v2⟩ := q
    rw [List.map_cons, List.nodup_cons] at hn
    obtain ⟨hk2, hn2⟩ := hn
    rcases List.mem_cons.mp hm with heq | hmt
    · injection heq with h1 h2
      subst h1
      subst h2
      simp [List.lookup]
    · have hkne : (k == k2) = false := by
        apply beq_eq_false_iff_ne.mpr
        intro he
        subst he
        have hmem := List.mem_map_of_mem Prod.fst hmt
        exact hk2 hmem
      simp only [List.lookup, hkne]
      exact ih hn2 hmt

/-- C2: for every store without duplicate identifiers, the state hash is
the SHA-256 digest of: tick counter as 8 LE bytes, then, per agent in
sorted-identifier order, identifier bytes, energy as 8 LE bytes, the
three position components as 4 LE bytes each, content-address bytes and
the parameter bytes — and with tick 0 and an empty store it is the
SHA-256 of eight zero bytes. -/
theorem state_fingerprint :
    (∀ s : HashSim, (s.agents.map Prod.fst).Nodup →
        calculate_state_hash s = specFingerprint s) ∧
    calculate_state_hash ⟨0, []⟩ = sha256 (List.replicate 8 0) := by
  constructor
  · intro s hn
    simp only [calculate_state_hash, specFingerprint, stateBytes]
    congr 1
    congr 1
    rw [← map_fst_insertionSort, List.foldl_map]
    apply List.foldl_ext
    intro acc p hp
    have hpm : p ∈ s.agents :=
      (List.perm_insertionSort keyLe s.agents).mem_iff.mp hp
    have hlk : s.agents.lookup p.1 = some p.2 :=
      lookup_eq_of_mem_nodup s.agents hn (by simpa using hpm)
    simp only [hlk]
  · rfl

/-- Witness for C2 at the spec's S1 scenario: one agent "agent-1"
(bytes 97,103,101,110,116,45,49), energy 100, position bit patterns 0
(the IEEE-754 pattern of 0.0), CID "Qm" (81,109), parameters 1,2,3. -/
theorem state_fingerprint_witness :
    (([([97,103,101,110,116,45,49], HAgent.mk 100 0 0 0 [81,109] [1,2,3])] :
        List (List Nat × HAgent)).map Prod.fst).Nodup ∧
    calculate_state_hash
        ⟨0, [([97,103,101,110,116,45,49],
          HAgent.mk 100 0 0 0 [81,109] [1,2,3])]⟩ =
      specFingerprint
        ⟨0, [([97,103,101,110,116,45,49],
          HAgent.mk 100 0 0 0 [81,109] [1,2,3])]⟩ :=
  ⟨by decide,
   state_fingerprint.1
     ⟨0, [([97,103,101,110,116,45,49],
       HAgent.mk 100 0 0 0 [81,109] [1,2,3])]⟩ (by decide)⟩

/-! ## SHA-256 test vectors (FIPS 180-4 / sha2 crate), validating the
hash embedding against the published digests. -/

/-- Digest of the empty message. -/
theorem sha256_empty :
    sha256 [] =
      [0xe3, 0xb0, 0xc4, 0x42, 0x98, 0xfc, 0x1c, 0x14, 0x9a, 0xfb, 0xf4,
       0xc8, 0x99, 0x6f, 0xb9, 0x24, 0x27, 0xae, 0x41, 0xe4, 0x64, 0x9b,
       0x93, 0x4c, 0xa4, 0x95, 0x99, 0x1b, 0x78, 0x52, 0xb8, 0x55] := by
  decide

/-- Digest of the three bytes "abc". -/
theorem sha256_abc :
    sha256 [0x61, 0x62, 0x63] =
      [0xba, 0x78, 0x16, 0xbf, 0x8f, 0x01, 0xcf, 0xea, 0x41, 0x41, 0x40,
       0xde, 0x5d, 0xae, 0x22, 0x23, 0xb0, 0x03, 0x61, 0xa3, 0x96, 0x17,
       0x7a, 0x9c, 0xb4, 0x10, 0xff, 0x61, 0xf2, 0x00, 0x15, 0xad] := by
  decide

/-- Digest of eight zero bytes — the fingerprint of an empty store at
tick 0. -/
theorem sha256_eight_zero_bytes :
    sha256 (List.replicate 8 0) =
      [0xaf, 0x55, 0x70, 0xf5, 0xa1, 0x81, 0x0b, 0x7a, 0xf7, 0x8c, 0xaf,
       0x4b, 0xc7, 0x0a, 0x66, 0x0f, 0x0d, 0xf5, 0x1e, 0x42, 0xba, 0xf9,
       0x1d, 0x4d, 0xe5, 0xb2, 0x32, 0x8d, 0xe0, 0xe8, 0x3d, 0xfc] := by
  decide

end ManifoldWeb
